import Mathlib

/-!
Shallow embedding of the wildduck search-filter compiler
(`uidRangeStringToQuery`, `prepareSearchFilter`) and the search-field
migration (`addSearchFields`, `buildSearchFromEnvelope`), together with
theorems settling the frozen claims about them.

Strings are modelled as Lean `String`; the character-level helpers below
mirror the JavaScript string operations used by the source (ASCII case
folding, whitespace trimming, splitting).
-/

namespace WildduckSearch

/-- ASCII lower-casing of one character, modelling `String.prototype.toLowerCase`
on the ASCII range. -/
def lowerChar (c : Char) : Char :=
  if 'A' ≤ c ∧ c ≤ 'Z' then Char.ofNat (c.toNat + 32) else c

/-- ASCII `toLowerCase`. -/
def lowerStr (s : String) : String :=
  ⟨s.data.map lowerChar⟩

/-- `String.prototype.trim`: drop whitespace from both ends. -/
def trimStr (s : String) : String :=
  ⟨((s.data.dropWhile Char.isWhitespace).reverse.dropWhile Char.isWhitespace).reverse⟩

/-- `term.toLowerCase().trim()` as used throughout the filter compiler. -/
def normTerm (t : String) : String := trimStr (lowerStr t)

/-- Split a character list at every character satisfying `p`
(single-character separators; empty groups are kept). -/
def splitOnPred (p : Char → Bool) : List Char → List (List Char)
  | [] => [[]]
  | c :: rest =>
    match splitOnPred p rest with
    | [] => [[]]
    | g :: gs => if p c then [] :: g :: gs else (c :: g) :: gs

/-- Split at a single separator character, like `String.prototype.split(sep)`. -/
def splitOnChar (sep : Char) (cs : List Char) : List (List Char) :=
  splitOnPred (fun c => c = sep) cs

/-- `term.split(/\s+/).filter(w => w)`: split on whitespace runs, dropping
empty fragments. -/
def splitWords (term : String) : List String :=
  ((splitOnPred Char.isWhitespace term.data).filter (fun w => !w.isEmpty)).map
    (fun w => ⟨w⟩)

/-- Decimal value of a digit string, modelling JavaScript `Number` on an
all-digits string. -/
def natOfDigits (cs : List Char) : Nat :=
  cs.foldl (fun acc c => acc * 10 + (c.toNat - 48)) 0

/-- Matches the regular expression `^\d+$`: nonempty, all decimal digits. -/
def isDigits (cs : List Char) : Bool :=
  !cs.isEmpty && cs.all Char.isDigit

/-- Insert into an ascending list, keeping duplicates. -/
def insertSorted (n : Nat) : List Nat → List Nat
  | [] => [n]
  | m :: ms => if n ≤ m then n :: m :: ms else m :: insertSorted n ms

/-- Ascending numeric sort, modelling `.sort((a, b) => a - b)`;
duplicates are kept. -/
def sortAsc : List Nat → List Nat
  | [] => []
  | n :: ns => insertSorted n (sortAsc ns)

/-- Modelled from the spec: the external regex-escaping utility
(`escapeRegexStr` from `tools.js`, which is not part of this repository
snapshot); the spec assumes it returns a pattern matching the literal
string, i.e. it backslash-escapes every regex metacharacter. -/
def escapeRegexStr (s : String) : String :=
  ⟨s.data.foldr
    (fun c acc =>
      if c ∈ ['.', '*', '+', '?', '^', '$', '(', ')', '[', ']', '\\', '|',
               Char.ofNat 123, Char.ofNat 125]
      then '\\' :: c :: acc else c :: acc) []⟩

/-- Result shape of `uidRangeStringToQuery`: a plain number (equality), a
`$in` member-of list, or a `$gte`/optional-`$lte` range. -/
inductive UidQuery where
  | eq (n : Nat)
  | memberOf (ns : List Nat)
  | range (lo : Nat) (hi : Option Nat)
  deriving Repr, DecidableEq

/-- `uidRangeStringToQuery` from the source: a single number becomes an
equality, a comma list becomes an ascending-sorted `$in`, and `low:high`
or `low:*` becomes a range (`*` leaves the upper bound off; equal numeric
bounds collapse to an equality).  Anything else yields no query. -/
def uidRangeStringToQuery (uidRange : String) : Option UidQuery :=
  let cs := uidRange.data
  if cs.isEmpty then none
  else if isDigits cs then some (.eq (natOfDigits cs))
  else if ((splitOnChar ',' cs).all isDigits) then
    some (.memberOf (sortAsc ((splitOnChar ',' cs).map natOfDigits)))
  else
    match splitOnChar ':' cs with
    | [a, b] =>
      if isDigits a && (isDigits b || b = ['*']) then
        if b = ['*'] then
          -- `Number('*')` is NaN: the sort comparator returns NaN (treated
          -- as 0, order kept), the equality test fails against NaN, and
          -- `isNaN(parts[1])` suppresses the upper bound.
          some (.range (natOfDigits a) none)
        else
          let lo := Nat.min (natOfDigits a) (natOfDigits b)
          let hi := Nat.max (natOfDigits a) (natOfDigits b)
          if lo = hi then some (.eq lo) else some (.range lo (some hi))
      else none
    | _ => none

/-- JavaScript truthiness of the parsed uid query (`Number 0` is falsy,
object-valued queries are truthy), as tested by `filter.mailbox && idQuery`. -/
def uidQueryTruthy : Option UidQuery → Bool
  | none => false
  | some (.eq n) => n ≠ 0
  | some _ => true

/-- Leaf and group predicates that `prepareSearchFilter` places into the
`$and` and `$or` arrays of the compiled filter. -/
inductive Pred where
  | eqStr (field : String) (value : String)
  | regexMatch (field : String) (pattern : String)
  | textSearch (q : String)
  | orGroup (ps : List Pred)
  | andGroup (ps : List Pred)
  deriving Repr

/-- The mailbox scope placed into `filter.mailbox`: an explicit mailbox id,
a `$in` inclusion set, or a `$nin` exclusion set.  Mailbox `ObjectId`s are
modelled as `Nat`. -/
inductive MailboxScope where
  | explicit (m : Nat)
  | inSet (ms : List Nat)
  | ninSet (ms : List Nat)
  deriving Repr, DecidableEq

/-- The compiled filter object, one field per key the source may set;
`none` models the key being absent from the JavaScript object. -/
structure Filter where
  user : Nat
  searchable : Option Bool := none
  textQuery : Option String := none
  mailbox : Option MailboxScope := none
  uid : Option UidQuery := none
  thread : Option Nat := none
  flagged : Option Bool := none
  unseen : Option Bool := none
  idateGte : Option Nat := none
  idateLte : Option Nat := none
  ha : Option Bool := none
  sizeGte : Option Nat := none
  sizeLte : Option Nat := none
  andQ : Option (List Pred) := none
  orQ : Option (List Pred) := none
  deriving Repr

/-- The disjunctive sub-criteria bundle `payload.or`. -/
structure OrTerms where
  query : Option String := none
  from_ : Option String := none
  to_ : Option String := none
  subject : Option String := none
  deriving Repr, DecidableEq

/-- The search payload.  Optional string fields use `none` for an absent
key; an empty string models a present-but-falsy value, which the source's
truthiness gates skip. -/
structure Payload where
  mailbox : Option Nat := none
  id : Option String := none
  thread : Option Nat := none
  orTerms : OrTerms := {}
  query : Option String := none
  datestart : Option Nat := none
  dateend : Option Nat := none
  from_ : Option String := none
  to_ : Option String := none
  subject : Option String := none
  attachments : Bool := false
  flagged : Bool := false
  unseen : Bool := false
  seen : Bool := false
  searchable : Bool := false
  minSize : Option Nat := none
  maxSize : Option Nat := none
  deriving Repr, DecidableEq

/-- The projected user document returned by the identity lookup. -/
structure UserData where
  username : String := ""
  address : String := ""
  deriving Repr, DecidableEq

/-- Outcome of one storage operation: a value, or a storage-layer failure. -/
inductive DbOutcome (α : Type) where
  | ok (a : α)
  | err
  deriving Repr, DecidableEq

/-- The database as seen by one `prepareSearchFilter` call: the result of
the identity lookup, of the non-Junk/Trash mailbox count probe, of the
non-Junk/Trash mailbox listing, and of the Junk/Trash mailbox listing. -/
structure Db where
  userRecord : DbOutcome (Option UserData)
  countEligible : DbOutcome Nat
  eligibleMailboxes : DbOutcome (List Nat)
  junkTrashMailboxes : DbOutcome (List Nat)
  deriving Repr, DecidableEq

/-- The errors `prepareSearchFilter` can throw: `InternalDatabaseError`
(responseCode 500) and `UserNotFound` (responseCode 404). -/
inductive SearchError where
  | internalDatabaseError
  | userNotFound
  deriving Repr, DecidableEq

/-- JavaScript truthiness gate for an optional string field. -/
def gate (o : Option String) : Option String :=
  match o with
  | some t => if t = "" then none else some t
  | none => none

/-- Predicate pushed for a mandatory or disjunctive `from` term. -/
def fromPred (term : String) : Pred :=
  if term.data.any (fun c => c = '@') then .eqStr "search.from" term
  else .regexMatch "search.fromName" (escapeRegexStr term)

/-- Predicate pushed for a mandatory or disjunctive `to` term (also
matches `cc`, joined by `$or`). -/
def toPred (term : String) : Pred :=
  if term.data.any (fun c => c = '@') then
    .orGroup [.eqStr "search.to" term, .eqStr "search.cc" term]
  else
    .orGroup [.regexMatch "search.toName" (escapeRegexStr term),
              .regexMatch "search.ccName" (escapeRegexStr term)]

/-- Per-word prefix predicate against the `search.subjectWords` index. -/
def subjectWordPred (w : String) : Pred :=
  .regexMatch "search.subjectWords" ("^" ++ escapeRegexStr w)

/-- The `$and` array: built dynamically by the `from`, `to` and `subject`
blocks, in source order (`none` = the `$and` key was never created). -/
def andPreds (p : Payload) : Option (List Pred) :=
  let l1 : Option (List Pred) :=
    match gate p.from_ with
    | some t => some [fromPred (normTerm t)]
    | none => none
  let l2 : Option (List Pred) :=
    match gate p.to_ with
    | some t => some (l1.getD [] ++ [toPred (normTerm t)])
    | none => l1
  match gate p.subject with
  | some t => some (l2.getD [] ++ (splitWords (normTerm t)).map subjectWordPred)
  | none => l2

/-- Disjunctive `subject`: one branch per the source (single word pushes
the bare predicate, otherwise a `$and` group of per-word predicates). -/
def orSubjectPreds (term : String) : List Pred :=
  match splitWords term with
  | [w] => [subjectWordPred w]
  | ws => [Pred.andGroup (ws.map subjectWordPred)]

/-- The `orQuery` array, in source push order: the `$text` branch (only
when the mandatory `query` is falsy), then `or.from`, `or.to`, `or.subject`. -/
def orPreds (p : Payload) : List Pred :=
  (match gate p.query, gate p.orTerms.query with
   | none, some q => [Pred.textSearch q]
   | _, _ => []) ++
  (match gate p.orTerms.from_ with
   | some t => [fromPred (normTerm t)]
   | none => []) ++
  (match gate p.orTerms.to_ with
   | some t => [toPred (normTerm t)]
   | none => []) ++
  (match gate p.orTerms.subject with
   | some t => orSubjectPreds (normTerm t)
   | none => [])

/-- Mailbox-scope resolution, lines 113–167 of the compiler: an explicit
mailbox wins; otherwise, under `searchable`, probe the non-Junk/Trash
count (a probe failure is swallowed, leaving the count unknown), choose
`$in` only for a truthy count below 200, and fetch the corresponding
listing — a listing failure throws `InternalDatabaseError` in either
branch. -/
def resolveScope (db : Db) (p : Payload) : Except SearchError (Option MailboxScope) :=
  match p.mailbox with
  | some m => .ok (some (.explicit m))
  | none =>
    if p.searchable then
      let cnt : Option Nat :=
        match db.countEligible with
        | .ok n => some n
        | .err => none
      if (match cnt with
          | some n => decide (0 < n) && decide (n < 200)
          | none => false) then
        match db.eligibleMailboxes with
        | .ok ids => .ok (some (.inSet ids))
        | .err => .error .internalDatabaseError
      else
        match db.junkTrashMailboxes with
        | .ok ids => .ok (some (.ninSet ids))
        | .err => .error .internalDatabaseError
    else .ok none

/-- Pure assembly of the compiled filter after scope resolution, mirroring
the source's field writes in order. -/
def buildFilter (user : Nat) (p : Payload) (scope : Option MailboxScope) : Filter :=
  let idQuery := uidRangeStringToQuery (p.id.getD "")
  -- `if (query) … else if (orTerms.query) …` both set `searchable = true`
  let searchable0 : Option Bool :=
    if gate p.query ≠ none ∨ gate p.orTerms.query ≠ none then some true else none
  -- seen writes `unseen = false`, then unseen overwrites it with `true`
  let unseenField : Option Bool :=
    if p.unseen then some true else if p.seen then some false else none
  let searchable1 : Option Bool :=
    if p.seen ∨ p.unseen ∨ p.searchable then some true else searchable0
  let orList := orPreds p
  { user := user
    searchable := searchable1
    textQuery := gate p.query
    mailbox := scope
    uid := if scope.isSome && uidQueryTruthy idQuery then idQuery else none
    thread := p.thread
    flagged := if p.flagged then some true else none
    unseen := unseenField
    idateGte := p.datestart
    idateLte := p.dateend
    ha := if p.attachments then some true else none
    sizeGte := match p.minSize with
               | some n => if n ≠ 0 then some n else none
               | none => none
    sizeLte := match p.maxSize with
               | some n => if n ≠ 0 then some n else none
               | none => none
    andQ := andPreds p
    orQ := if orList.isEmpty then none else some orList }

/-- `prepareSearchFilter`: the identity lookup throws
`InternalDatabaseError` on storage failure and `UserNotFound` when the
user is absent; then mailbox scope is resolved and the filter assembled.
Returns the filter together with the original free-text query. -/
def prepareSearchFilter (db : Db) (user : Nat) (p : Payload) :
    Except SearchError (Filter × Option String) :=
  match db.userRecord with
  | .err => .error .internalDatabaseError
  | .ok none => .error .userNotFound
  | .ok (some _) =>
    match resolveScope db p with
    | .error e => .error e
    | .ok scope => .ok (buildFilter user p scope, p.query)

/-! ### Migration: `buildSearchFromEnvelope` and `addSearchFields` -/

/-- One envelope address entry `[name, routing, local-part, domain]`;
empty strings model absent/falsy positions. -/
structure Addr where
  name : String := ""
  localPart : String := ""
  domain : String := ""
  deriving Repr, DecidableEq

/-- The fixed-position envelope as far as the extractor reads it:
position 1 (raw subject) and positions 2/5/6 (from/to/cc lists).
`none` on a list models a missing or non-array position; a `none` entry
models a non-array entry. -/
structure Envelope where
  subject : String := ""
  from_ : Option (List (Option Addr)) := none
  to_ : Option (List (Option Addr)) := none
  cc : Option (List (Option Addr)) := none
  deriving Repr, DecidableEq

/-- A value stored in the denormalized search object: an address list or
a plain string. -/
inductive SVal where
  | strList (ss : List String)
  | str (s : String)
  deriving Repr, DecidableEq

/-- The denormalized search object, as the ordered association list of
keys the extractor writes. -/
abbrev SearchIndex := List (String × SVal)

/-- The per-entry loop of the extractor: collect the lowercase trimmed
`local@domain` addresses (entries with both parts, and the address must
still contain `@` — always true) and the lowercase trimmed nonempty
names, in entry order. -/
def extractEntries (entries : List (Option Addr)) : List String × List String :=
  entries.foldr
    (fun e (acc : List String × List String) =>
      match e with
      | none => acc
      | some a =>
        let withAddr :=
          if a.localPart ≠ "" ∧ a.domain ≠ "" then
            let addr := trimStr (lowerStr (a.localPart ++ "@" ++ a.domain))
            if addr.data.any (fun c => c = '@') then (addr :: acc.1, acc.2) else acc
          else acc
        if a.name ≠ "" then
          let n := trimStr (lowerStr a.name)
          if n ≠ "" then (withAddr.1, n :: withAddr.2) else withAddr
        else withAddr)
    ([], [])

/-- One from/to/cc section of the extractor: skipped unless the position
is a nonempty array; the address list is emitted under `listKey` when
nonempty, the space-joined names under `nameKey` when nonempty. -/
def addrSection (listKey nameKey : String) (entries : Option (List (Option Addr))) :
    SearchIndex :=
  match entries with
  | none => []
  | some es =>
    if es.isEmpty then []
    else
      let (addresses, names) := extractEntries es
      (if addresses.isEmpty then [] else [(listKey, SVal.strList addresses)]) ++
      (if names.isEmpty then [] else [(nameKey, SVal.str (String.intercalate " " names))])

/-- `buildSearchFromEnvelope`: a missing envelope yields the empty object;
otherwise the from/to/cc sections plus the subject (preferring the
pre-decoded subject field, falling back to the envelope's raw subject,
lowercased and trimmed, omitted when empty). -/
def buildSearchFromEnvelope (envelope : Option Envelope) (subjectField : String) :
    SearchIndex :=
  match envelope with
  | none => []
  | some env =>
    addrSection "from" "fromName" env.from_ ++
    addrSection "to" "toName" env.to_ ++
    addrSection "cc" "ccName" env.cc ++
    (let subject := if subjectField ≠ "" then subjectField else env.subject
     if subject ≠ "" then [("subject", SVal.str (trimStr (lowerStr subject)))] else [])

/-- A message record as the migration sees it: identifier, the optional
denormalized `search` field, and the projected envelope/subject data. -/
structure MsgRecord where
  id : Nat
  envelope : Option Envelope := none
  subject : String := ""
  search : Option SearchIndex := none
  deriving Repr, DecidableEq

/-- The messages collection, ordered by ascending `_id` (the `_id` index
order assumed by the source's cursor pagination). -/
abbrev Store := List MsgRecord

def BATCH_SIZE : Nat := 1000

/-- The batch query: no `search` field, `_id ≤ snapshotMax` and, once the
cursor moved, `_id > lastId`. -/
def eligible (snapMax : Nat) (lastId : Option Nat) (r : MsgRecord) : Bool :=
  r.search.isNone && r.id ≤ snapMax &&
    (match lastId with
     | none => true
     | some l => l < r.id)

/-- One `find … sort(_id: 1) … limit(BATCH_SIZE)` fetch. -/
def fetchBatch (snapMax : Nat) (lastId : Option Nat) (s : Store) : List MsgRecord :=
  (s.filter (eligible snapMax lastId)).take BATCH_SIZE

/-- The unordered bulk write: each batch document's record gets its
`search` field set to the value built from that document's envelope and
subject; all other records are untouched. -/
def applyBulk (s : Store) (batch : List MsgRecord) : Store :=
  s.map (fun r =>
    match batch.find? (fun b => b.id == r.id) with
    | some b => { r with search := some (buildSearchFromEnvelope b.envelope b.subject) }
    | none => r)

/-- The migration's processing loop: fetch a batch, stop when it is
empty, otherwise bulk-write the derived search fields, advance the cursor
to the batch's last identifier and accumulate the modified count (every
batch document is modified, having had no `search` field).  `fuel` bounds
the number of iterations; the entry point below supplies enough for the
loop to reach its empty-batch exit. -/
def migrateLoop (snapMax : Nat) : Nat → Store → Option Nat → Nat → Store × Nat
  | 0, s, _, acc => (s, acc)
  | fuel + 1, s, lastId, acc =>
    let batch := fetchBatch snapMax lastId s
    match batch.getLast? with
    | none => (s, acc)
    | some lastDoc =>
      migrateLoop snapMax fuel (applyBulk s batch) (some lastDoc.id) (acc + batch.length)

/-- `find({}).sort(_id: -1).limit(1)`: the maximum identifier present. -/
def maxIdOf (s : Store) : Option Nat :=
  match s.map (fun r => r.id) with
  | [] => none
  | x :: xs => some (xs.foldl Nat.max x)

/-- `addSearchFields`: capture the snapshot maximum once; skip the run if
the collection is empty or no record below the snapshot lacks the search
field; otherwise run the batch loop from an unset cursor.  Returns the
final store and the processed count. -/
def addSearchFields (s : Store) : Store × Nat :=
  match maxIdOf s with
  | none => (s, 0)
  | some snapMax =>
    let total := (s.filter (fun r => r.search.isNone && r.id ≤ snapMax)).length
    if total = 0 then (s, 0)
    else migrateLoop snapMax (total + 1) s none 0

/-! ### Concrete databases and payloads used by witnesses -/

/-- A database where every operation succeeds. -/
def dbAllOk : Db :=
  { userRecord := .ok (some {})
    countEligible := .ok 3
    eligibleMailboxes := .ok [1, 2, 3]
    junkTrashMailboxes := .ok [9] }

/-- Identity lookup succeeds, the non-Junk/Trash count is 100 (a truthy
count below 200), but the inclusion-listing fetch fails. -/
def dbListingFails : Db :=
  { userRecord := .ok (some {})
    countEligible := .ok 100
    eligibleMailboxes := .err
    junkTrashMailboxes := .ok [9] }

/-- Identity lookup succeeds, the count probe fails, the listings succeed. -/
def dbCountFails : Db :=
  { userRecord := .ok (some {})
    countEligible := .err
    eligibleMailboxes := .ok [1, 2, 3]
    junkTrashMailboxes := .ok [9] }

/-- Identity lookup succeeds and the count probe succeeds with a known
count of zero eligible mailboxes. -/
def dbCountZero : Db :=
  { userRecord := .ok (some {})
    countEligible := .ok 0
    eligibleMailboxes := .ok [1, 2, 3]
    junkTrashMailboxes := .ok [9] }

/-- Identity lookup succeeds with a known eligible count of 150. -/
def dbCount150 : Db :=
  { userRecord := .ok (some {})
    countEligible := .ok 150
    eligibleMailboxes := .ok [1, 2, 3]
    junkTrashMailboxes := .ok [9] }

/-- A payload carrying only the `searchable` flag. -/
def searchableOnly : Payload := { searchable := true }

/-- One from-entry with display name, local part and domain. -/
def janeEnv : Envelope :=
  { from_ := some [some { name := "Jane Doe", localPart := "jane", domain := "example.com" }] }

/-! ### Helper lemmas -/

theorem prepare_ok_inv (db : Db) (u : Nat) (p : Payload) (f : Filter) (q : Option String)
    (h : prepareSearchFilter db u p = .ok (f, q)) :
    ∃ scope, resolveScope db p = .ok scope ∧ f = buildFilter u p scope ∧ q = p.query := by
  unfold prepareSearchFilter at h
  cases hu : db.userRecord with
  | err => rw [hu] at h; exact absurd h (by simp)
  | ok o =>
    cases o with
    | none => rw [hu] at h; exact absurd h (by simp)
    | some ud =>
      rw [hu] at h
      cases hs : resolveScope db p with
      | error e => rw [hs] at h; exact absurd h (by simp)
      | ok scope =>
        rw [hs] at h
        refine ⟨scope, rfl, ?_, ?_⟩
        · injection h with h'
          exact (congrArg Prod.fst h').symm
        · injection h with h'
          exact (congrArg Prod.snd h').symm

theorem buildFilter_unseen (u : Nat) (p : Payload) (scope : Option MailboxScope) :
    (buildFilter u p scope).unseen
      = if p.unseen then some true else if p.seen then some false else none := rfl

theorem buildFilter_searchable_of_seen (u : Nat) (p : Payload) (scope : Option MailboxScope)
    (h : p.seen = true) : (buildFilter u p scope).searchable = some true := by
  show (if p.seen ∨ p.unseen ∨ p.searchable then some true else _) = some true
  rw [h]; simp

theorem buildFilter_uid (u : Nat) (p : Payload) (scope : Option MailboxScope) :
    (buildFilter u p scope).uid
      = if scope.isSome && uidQueryTruthy (uidRangeStringToQuery (p.id.getD ""))
        then uidRangeStringToQuery (p.id.getD "") else none := rfl

theorem buildFilter_mailbox (u : Nat) (p : Payload) (scope : Option MailboxScope) :
    (buildFilter u p scope).mailbox = scope := rfl

theorem buildFilter_andQ (u : Nat) (p : Payload) (scope : Option MailboxScope) :
    (buildFilter u p scope).andQ = andPreds p := rfl

theorem resolveScope_skip (db : Db) (p : Payload)
    (hm : p.mailbox = none) (hs : p.searchable = false) :
    resolveScope db p = .ok none := by
  unfold resolveScope
  rw [hm, hs]
  simp

/-! ### Claim theorems -/

/-- C1, counterexample: with a resolvable owner, a searchable payload and
a successful count probe of 100, a storage failure in the mailbox-listing
fetch makes `prepareSearchFilter` fail with `InternalDatabaseError` —
refuting the claim that a count or listing failure never aborts
compilation and that the identity lookup is the only hard failure path. -/
theorem listing_failure_aborts_compilation :
    prepareSearchFilter dbListingFails 1 searchableOnly
      = .error .internalDatabaseError := rfl

/-- C1, amended: only the eligible-mailbox *count* probe fails silently —
when the count probe fails and the Junk/Trash listing succeeds,
compilation succeeds and uses the exclusion-set scope strategy; a failure
of the mailbox-listing fetch itself aborts with `InternalDatabaseError`,
exactly like a storage failure of the identity lookup. -/
theorem count_probe_failure_degrades (db : Db) (u : Nat) (p : Payload) (ud : UserData)
    (ids : List Nat)
    (hu : db.userRecord = .ok (some ud))
    (hm : p.mailbox = none) (hsf : p.searchable = true)
    (hc : db.countEligible = .err)
    (hj : db.junkTrashMailboxes = .ok ids) :
    prepareSearchFilter db u p = .ok (buildFilter u p (some (.ninSet ids)), p.query) := by
  unfold prepareSearchFilter resolveScope
  rw [hu, hm, hsf, hc, hj]
  rfl

/-- Witness for the amended C1 theorem at a concrete database. -/
theorem count_probe_failure_degrades_witness :
    (dbCountFails.userRecord = .ok (some {}) ∧ searchableOnly.mailbox = none ∧
      searchableOnly.searchable = true ∧ dbCountFails.countEligible = .err ∧
      dbCountFails.junkTrashMailboxes = .ok [9]) ∧
    prepareSearchFilter dbCountFails 1 searchableOnly
      = .ok (buildFilter 1 searchableOnly (some (.ninSet [9])), none) :=
  ⟨⟨rfl, rfl, rfl, rfl, rfl⟩,
   count_probe_failure_degrades dbCountFails 1 searchableOnly {} [9] rfl rfl rfl rfl rfl⟩

/-- C2, counterexample: a *known* eligible-mailbox count of 0 is strictly
below 200, yet the source's truthiness test (`count && count < 200`)
sends it to the `$nin` exclusion branch, refuting "for every known
eligible-mailbox count strictly below 200, scope resolution produces the
inclusion-set strategy". -/
theorem count_zero_uses_exclusion :
    Except.map (fun r => r.1.mailbox) (prepareSearchFilter dbCountZero 1 searchableOnly)
      = .ok (some (.ninSet [9])) := rfl

/-- C2, amended: a known count strictly between 0 and 200 (exclusive)
yields the inclusion-set strategy; a known count of 0, a known count of
200 or more, and an unknown count (failed probe) all yield the
exclusion-set strategy.  In particular 150 → inclusion, 250 → exclusion,
unknown → exclusion. -/
theorem scope_strategy_selection (db : Db) (u : Nat) (p : Payload) (ud : UserData)
    (inIds ninIds : List Nat)
    (hu : db.userRecord = .ok (some ud))
    (hm : p.mailbox = none) (hsf : p.searchable = true)
    (hin : db.eligibleMailboxes = .ok inIds)
    (hnin : db.junkTrashMailboxes = .ok ninIds) :
    (∀ n, db.countEligible = .ok n →
        Except.map (fun r => r.1.mailbox) (prepareSearchFilter db u p)
          = .ok (some (if 0 < n ∧ n < 200 then .inSet inIds else .ninSet ninIds))) ∧
    (db.countEligible = .err →
        Except.map (fun r => r.1.mailbox) (prepareSearchFilter db u p)
          = .ok (some (.ninSet ninIds))) := by
  constructor
  · intro n hc
    unfold prepareSearchFilter resolveScope
    rw [hu, hm, hsf, hc, hin, hnin]
    by_cases h : 0 < n ∧ n < 200
    · rw [if_pos h]
      simp [h.1, h.2, Except.map, buildFilter_mailbox]
    · rw [if_neg h]
      have hcond : (decide (0 < n) && decide (n < 200)) = false := by
        rcases Decidable.not_and_iff_or_not.mp h with h' | h' <;> simp [h']
      simp [hcond, Except.map, buildFilter_mailbox]
  · intro hc
    unfold prepareSearchFilter resolveScope
    rw [hu, hm, hsf, hc, hnin]
    rfl

/-- Witness for the amended C2 theorem: count 150 selects the
inclusion-set strategy. -/
theorem scope_strategy_selection_witness :
    (dbCount150.userRecord = .ok (some {}) ∧ searchableOnly.mailbox = none ∧
      searchableOnly.searchable = true ∧ dbCount150.eligibleMailboxes = .ok [1, 2, 3] ∧
      dbCount150.junkTrashMailboxes = .ok [9] ∧ dbCount150.countEligible = .ok 150) ∧
    Except.map (fun r => r.1.mailbox) (prepareSearchFilter dbCount150 1 searchableOnly)
      = .ok (some (.inSet [1, 2, 3])) := by
  refine ⟨⟨rfl, rfl, rfl, rfl, rfl, rfl⟩, ?_⟩
  have h := (scope_strategy_selection dbCount150 1 searchableOnly {} [1, 2, 3] [9]
    rfl rfl rfl rfl rfl).1 150 rfl
  simpa using h

/-- C3: the range parser maps `"5"` to equality 5, `"5,3,10"` to a
member-of constraint over the ascending-sorted list, `"5:10"` to the
range 5–10, `"5:*"` to a lower-bounded range with no upper bound,
`"7:7"` to equality 7 (equal bounds collapse), and a non-matching string
such as `"abc"` to no constraint; moreover every parsed bounded range has
its low bound ≤ high bound (out-of-order bounds are swapped). -/
theorem uidRange_parser_cases :
    uidRangeStringToQuery "5" = some (.eq 5) ∧
    uidRangeStringToQuery "5,3,10" = some (.memberOf [3, 5, 10]) ∧
    uidRangeStringToQuery "5:10" = some (.range 5 (some 10)) ∧
    uidRangeStringToQuery "5:*" = some (.range 5 none) ∧
    uidRangeStringToQuery "7:7" = some (.eq 7) ∧
    uidRangeStringToQuery "abc" = none ∧
    ∀ s lo hi, uidRangeStringToQuery s = some (.range lo (some hi)) → lo ≤ hi := by
  refine ⟨by decide, by decide, by decide, by decide, by decide, by decide, ?_⟩
  intro s lo hi h
  simp only [uidRangeStringToQuery] at h
  split at h
  · exact absurd h (by simp)
  · split at h
    · exact absurd h (by simp)
    · split at h
      · exact absurd h (by simp)
      · split at h
        · split at h
          · split at h
            · exact absurd h (by simp)
            · split at h
              · exact absurd h (by simp)
              · rw [Option.some_inj] at h
                cases h
                exact min_le_max
          · exact absurd h (by simp)
        · exact absurd h (by simp)

/-- Witness for the C3 theorem's universal low-≤-high invariant at the
out-of-order input `"10:5"`. -/
theorem uidRange_parser_cases_witness :
    uidRangeStringToQuery "10:5" = some (.range 5 (some 10)) ∧ 5 ≤ 10 :=
  ⟨by decide, uidRange_parser_cases.2.2.2.2.2.2 "10:5" 5 10 (by decide)⟩

/-- C4: whenever a payload sets both `seen` and `unseen` and compilation
succeeds, the compiled filter carries `unseen = true` and
`searchable = true`: the `seen`-derived `unseen = false` write is
overwritten, so the unseen state is the only one encoded. -/
theorem unseen_overrides_seen (db : Db) (u : Nat) (p : Payload) (f : Filter)
    (q : Option String)
    (hok : prepareSearchFilter db u p = .ok (f, q))
    (hseen : p.seen = true) (hunseen : p.unseen = true) :
    f.unseen = some true ∧ f.searchable = some true := by
  obtain ⟨scope, -, hf, -⟩ := prepare_ok_inv db u p f q hok
  subst hf
  refine ⟨?_, buildFilter_searchable_of_seen u p scope hseen⟩
  rw [buildFilter_unseen, hunseen]
  simp

/-- Witness for C4 at a concrete payload with both flags set. -/
theorem unseen_overrides_seen_witness :
    (prepareSearchFilter dbAllOk 1 { seen := true, unseen := true }
        = .ok (buildFilter 1 { seen := true, unseen := true } none, none)) ∧
    (buildFilter 1 { seen := true, unseen := true } none).unseen = some true ∧
    (buildFilter 1 { seen := true, unseen := true } none).searchable = some true :=
  ⟨rfl, unseen_overrides_seen dbAllOk 1 { seen := true, unseen := true } _ _ rfl rfl rfl⟩

/-- C5: when a payload supplies neither an explicit mailbox nor the
`searchable` flag, no mailbox scope is resolved, so the compiled filter
contains no uid predicate even if an id-range expression was supplied. -/
theorem no_uid_without_mailbox_scope (db : Db) (u : Nat) (p : Payload) (f : Filter)
    (q : Option String)
    (hok : prepareSearchFilter db u p = .ok (f, q))
    (hm : p.mailbox = none) (hsf : p.searchable = false) :
    f.uid = none := by
  obtain ⟨scope, hscope, hf, -⟩ := prepare_ok_inv db u p f q hok
  subst hf
  rw [resolveScope_skip db p hm hsf] at hscope
  injection hscope with h
  subst h
  rw [buildFilter_uid]
  rfl

/-- Witness for C5 at a payload carrying an id-range but no scope. -/
theorem no_uid_without_mailbox_scope_witness :
    (prepareSearchFilter dbAllOk 1 { id := some "5:10" }
        = .ok (buildFilter 1 { id := some "5:10" } none, none)) ∧
    (buildFilter 1 { id := some "5:10" } none).uid = none :=
  ⟨rfl, no_uid_without_mailbox_scope dbAllOk 1 { id := some "5:10" } _ _ rfl rfl rfl⟩

theorem andPreds_from_mem (p : Payload) (t : String) (h : gate p.from_ = some t) :
    fromPred (normTerm t) ∈ (andPreds p).getD [] := by
  unfold andPreds
  rw [h]
  cases h2 : gate p.to_ <;> cases h3 : gate p.subject <;>
    simp [List.mem_append]

theorem andPreds_to_mem (p : Payload) (t : String) (h : gate p.to_ = some t) :
    toPred (normTerm t) ∈ (andPreds p).getD [] := by
  unfold andPreds
  rw [h]
  cases h1 : gate p.from_ <;> cases h3 : gate p.subject <;>
    simp [List.mem_append]

/-- C6: a mandatory `from` or `to` term is lowercased and trimmed and
lands in the conjunction (`$and`) of the compiled filter as `fromPred`
resp. `toPred` — an exact-equality predicate on the normalized address
field when the term contains `@` (for `to`, an OR over the `to` and `cc`
address fields), and otherwise an escaped-literal pattern predicate
against the indexed name field (for `to`, an OR over `toName`/`ccName`).
In particular `{from: "alice@x.com"}` compiles a conjunction requiring
`search.from` to equal `"alice@x.com"` exactly. -/
theorem from_to_term_compilation :
    (∀ db u p f q t, prepareSearchFilter db u p = .ok (f, q) →
        p.from_ = some t → t ≠ "" → fromPred (normTerm t) ∈ f.andQ.getD []) ∧
    (∀ db u p f q t, prepareSearchFilter db u p = .ok (f, q) →
        p.to_ = some t → t ≠ "" → toPred (normTerm t) ∈ f.andQ.getD []) ∧
    fromPred "alice@x.com" = .eqStr "search.from" "alice@x.com" ∧
    fromPred "alice" = .regexMatch "search.fromName" "alice" ∧
    toPred "bob@y.org" = .orGroup [.eqStr "search.to" "bob@y.org",
                                   .eqStr "search.cc" "bob@y.org"] ∧
    toPred "bob" = .orGroup [.regexMatch "search.toName" "bob",
                             .regexMatch "search.ccName" "bob"] ∧
    Except.map (fun r => r.1.andQ)
        (prepareSearchFilter dbAllOk 1 { from_ := some "alice@x.com" })
      = .ok (some [Pred.eqStr "search.from" "alice@x.com"]) := by
  refine ⟨?_, ?_, rfl, rfl, rfl, rfl, rfl⟩
  · intro db u p f q t hok hfrom hne
    obtain ⟨scope, -, hf, -⟩ := prepare_ok_inv db u p f q hok
    subst hf
    rw [buildFilter_andQ]
    exact andPreds_from_mem p t (by rw [gate.eq_def, hfrom]; simp [hne])
  · intro db u p f q t hok hto hne
    obtain ⟨scope, -, hf, -⟩ := prepare_ok_inv db u p f q hok
    subst hf
    rw [buildFilter_andQ]
    exact andPreds_to_mem p t (by rw [gate.eq_def, hto]; simp [hne])

/-- Witness for C6 at the end-to-end example payload. -/
theorem from_to_term_compilation_witness :
    (prepareSearchFilter dbAllOk 1 { from_ := some "alice@x.com" }
        = .ok (buildFilter 1 { from_ := some "alice@x.com" } none, none)) ∧
    fromPred (normTerm "alice@x.com")
      ∈ ((buildFilter 1 { from_ := some "alice@x.com" } none).andQ).getD [] :=
  ⟨rfl,
   from_to_term_compilation.1 dbAllOk 1 { from_ := some "alice@x.com" } _ _
     "alice@x.com" rfl rfl (by decide)⟩

/-- Spec-side characterization: the address an entry contributes — the
lowercase trimmed `local@domain` string exactly when both the local part
and the domain are present. -/
def addrOf (e : Option Addr) : Option String :=
  match e with
  | some a =>
    if a.localPart ≠ "" ∧ a.domain ≠ "" then
      some (trimStr (lowerStr (a.localPart ++ "@" ++ a.domain)))
    else none
  | none => none

/-- Spec-side characterization: the name an entry contributes — the
lowercase trimmed display name exactly when present and nonempty after
normalization. -/
def nameOf (e : Option Addr) : Option String :=
  match e with
  | some a =>
    if a.name ≠ "" ∧ trimStr (lowerStr a.name) ≠ "" then
      some (trimStr (lowerStr a.name))
    else none
  | none => none

theorem mem_dropWhile_of_neg {c : Char} {p : Char → Bool} (hp : p c = false) :
    ∀ cs : List Char, c ∈ cs → c ∈ cs.dropWhile p := by
  intro cs hmem
  induction cs with
  | nil => simp at hmem
  | cons d ds ih =>
    rw [List.dropWhile_cons]
    by_cases hd : p d = true
    · rw [if_pos hd]
      rcases List.mem_cons.mp hmem with hcd | hin
      · subst hcd; rw [hp] at hd; exact absurd hd (by simp)
      · exact ih hin
    · rw [if_neg hd]
      exact hmem

theorem at_mem_trimmed (cs : List Char) (h : '@' ∈ cs) :
    '@' ∈ ((cs.dropWhile Char.isWhitespace).reverse.dropWhile Char.isWhitespace).reverse := by
  have h1 := mem_dropWhile_of_neg (p := Char.isWhitespace) (by decide) cs h
  have h2 : '@' ∈ (cs.dropWhile Char.isWhitespace).reverse := List.mem_reverse.mpr h1
  have h3 := mem_dropWhile_of_neg (p := Char.isWhitespace) (by decide) _ h2
  exact List.mem_reverse.mpr h3

theorem addr_contains_at (l d : String) :
    (trimStr (lowerStr (l ++ "@" ++ d))).data.any (fun c => c = '@') = true := by
  have hmem : '@' ∈ (lowerStr (l ++ "@" ++ d)).data := by
    show '@' ∈ (l ++ "@" ++ d).data.map lowerChar
    have hdata : (l ++ "@" ++ d).data = l.data ++ '@' :: d.data := by
      rw [String.data_append, String.data_append, List.append_assoc]
      rfl
    rw [hdata, List.map_append]
    refine List.mem_append.mpr (Or.inr ?_)
    rw [List.map_cons]
    exact List.mem_cons_self _ _
  have := at_mem_trimmed _ hmem
  rw [List.any_eq_true]
  exact ⟨'@', this, by simp⟩

theorem extractEntries_cons (e : Option Addr) (es : List (Option Addr)) :
    extractEntries (e :: es)
      = (match e with
         | none => extractEntries es
         | some a =>
           let acc := extractEntries es
           let withAddr :=
             if a.localPart ≠ "" ∧ a.domain ≠ "" then
               let addr := trimStr (lowerStr (a.localPart ++ "@" ++ a.domain))
               if addr.data.any (fun c => c = '@') then (addr :: acc.1, acc.2) else acc
             else acc
           if a.name ≠ "" then
             let n := trimStr (lowerStr a.name)
             if n ≠ "" then (withAddr.1, n :: withAddr.2) else withAddr
           else withAddr) := rfl

theorem extractEntries_eq (entries : List (Option Addr)) :
    extractEntries entries = (entries.filterMap addrOf, entries.filterMap nameOf) := by
  induction entries with
  | nil => rfl
  | cons e es ih =>
    rw [extractEntries_cons, List.filterMap_cons, List.filterMap_cons]
    cases e with
    | none => simpa [addrOf, nameOf] using ih
    | some a =>
      simp only [ih]
      rcases Decidable.em (a.localPart ≠ "" ∧ a.domain ≠ "") with hboth | hboth <;>
        rcases Decidable.em (a.name ≠ "") with hname | hname <;>
          rcases Decidable.em (trimStr (lowerStr a.name) ≠ "") with hn | hn <;>
            simp [addrOf, nameOf, hboth, hname, hn, addr_contains_at]

/-- C7: per from/to/cc list the extractor emits a lowercase trimmed
`local@domain` address for exactly the entries having both a local part
and a domain, and a lowercase trimmed name for exactly the entries with a
(nonempty after normalization) display name, names joined by single
spaces and each field omitted when its list is empty; on the example
envelope it yields `from = ["jane@example.com"]` and
`fromName = "jane doe"`, an entry missing its domain contributes only a
name, and an empty from-list yields neither field.  The extractor is a
total function, so it never fails on partial envelope shapes. -/
theorem envelope_extractor_behaviour :
    (∀ entries : List (Option Addr),
        extractEntries entries = (entries.filterMap addrOf, entries.filterMap nameOf)) ∧
    buildSearchFromEnvelope (some janeEnv) ""
      = [("from", .strList ["jane@example.com"]), ("fromName", .str "jane doe")] ∧
    buildSearchFromEnvelope
        (some { from_ := some [some { name := "Jane Doe", localPart := "jane" }] }) ""
      = [("fromName", .str "jane doe")] ∧
    buildSearchFromEnvelope (some { from_ := some [] }) "" = [] ∧
    buildSearchFromEnvelope none "anything" = [] :=
  ⟨extractEntries_eq, by decide, by decide, by decide, by decide⟩

theorem addrSection_keys (lk nk : String) (es : Option (List (Option Addr))) :
    ∀ k ∈ (addrSection lk nk es).map Prod.fst, k = lk ∨ k = nk := by
  intro k hk
  cases es with
  | none => simp [addrSection] at hk
  | some l =>
    unfold addrSection at hk
    dsimp only at hk
    by_cases he : l.isEmpty
    · rw [if_pos he] at hk; simp at hk
    · rw [if_neg he] at hk
      rcases hd : (extractEntries l) with ⟨addresses, names⟩
      rw [hd] at hk
      by_cases ha : addresses.isEmpty <;> by_cases hn : names.isEmpty <;>
        simp [ha, hn] at hk <;> tauto

theorem buildSearch_keys (env : Option Envelope) (subj : String) :
    ∀ k ∈ (buildSearchFromEnvelope env subj).map Prod.fst,
      k ∈ ["from", "fromName", "to", "toName", "cc", "ccName", "subject"] := by
  intro k hk
  cases env with
  | none => simp [buildSearchFromEnvelope] at hk
  | some e =>
    unfold buildSearchFromEnvelope at hk
    rw [List.map_append, List.map_append, List.map_append] at hk
    rcases List.mem_append.mp hk with hk' | hsub
    · rcases List.mem_append.mp hk' with hk'' | hcc
      · rcases List.mem_append.mp hk'' with hfrom | hto
        · rcases addrSection_keys _ _ _ k hfrom with h | h <;> subst h <;> simp
        · rcases addrSection_keys _ _ _ k hto with h | h <;> subst h <;> simp
      · rcases addrSection_keys _ _ _ k hcc with h | h <;> subst h <;> simp
    · by_cases hs : (if subj ≠ "" then subj else e.subject) ≠ "" <;>
        simp [hs] at hsub <;> simp [hsub]

/-- C10: the search object written by the extractor only ever contains
the keys from/fromName/to/toName/cc/ccName/subject — never
`subjectWords` — while every mandatory subject predicate the filter
compiler emits targets the `search.subjectWords` field (shown both for
the generic per-word predicate list and end-to-end on a concrete
payload). -/
theorem search_keys_never_subjectWords :
    (∀ env subj k, k ∈ (buildSearchFromEnvelope env subj).map Prod.fst →
        k ∈ ["from", "fromName", "to", "toName", "cc", "ccName", "subject"]) ∧
    (∀ env subj, "subjectWords" ∉ (buildSearchFromEnvelope env subj).map Prod.fst) ∧
    (∀ term pr, pr ∈ (splitWords term).map subjectWordPred →
        ∃ pat, pr = Pred.regexMatch "search.subjectWords" pat) ∧
    Except.map (fun r => r.1.andQ)
        (prepareSearchFilter dbAllOk 1 { subject := some "hello" })
      = .ok (some [Pred.regexMatch "search.subjectWords" "^hello"]) := by
  refine ⟨buildSearch_keys, ?_, ?_, rfl⟩
  · intro env subj hmem
    have := buildSearch_keys env subj _ hmem
    simp at this
  · intro term pr hpr
    rcases List.mem_map.mp hpr with ⟨w, -, hw⟩
    exact ⟨"^" ++ escapeRegexStr w, hw.symm⟩

/-- Witness for C10's membership hypotheses at a concrete envelope and
predicate list. -/
theorem search_keys_never_subjectWords_witness :
    ("from" ∈ (buildSearchFromEnvelope (some janeEnv) "").map Prod.fst ∧
      "from" ∈ ["from", "fromName", "to", "toName", "cc", "ccName", "subject"]) ∧
    (subjectWordPred "hello" ∈ (splitWords "hello").map subjectWordPred ∧
      ∃ pat, subjectWordPred "hello" = Pred.regexMatch "search.subjectWords" pat) :=
  ⟨⟨by decide, search_keys_never_subjectWords.1 (some janeEnv) "" "from" (by decide)⟩,
   ⟨List.mem_map.mpr ⟨"hello", by decide, rfl⟩,
    search_keys_never_subjectWords.2.2.1 "hello" (subjectWordPred "hello")
      (List.mem_map.mpr ⟨"hello", by decide, rfl⟩)⟩⟩

theorem applyBulk_cons (r : MsgRecord) (rs : Store) (batch : List MsgRecord) :
    applyBulk (r :: rs) batch
      = (match batch.find? (fun b => b.id == r.id) with
         | some b => { r with search := some (buildSearchFromEnvelope b.envelope b.subject) }
         | none => r) :: applyBulk rs batch := rfl

theorem applyBulk_filter_gt (m : Nat) (batch : List MsgRecord)
    (hb : ∀ b ∈ batch, b.id ≤ m) (s : Store) :
    (applyBulk s batch).filter (fun r => decide (m < r.id))
      = s.filter (fun r => decide (m < r.id)) := by
  induction s with
  | nil => rfl
  | cons r rs ih =>
    rw [applyBulk_cons, List.filter_cons, List.filter_cons]
    cases hf : batch.find? (fun b => b.id == r.id) with
    | none =>
      simp only [ih]
    | some b =>
      have hble : b.id ≤ m := hb b (List.mem_of_find?_eq_some hf)
      have hbeq := List.find?_some hf
      simp only [beq_iff_eq] at hbeq
      have hnot : ¬ m < r.id := by omega
      simp [hnot, ih]

theorem fetchBatch_le (snapMax : Nat) (lastId : Option Nat) (s : Store) :
    ∀ r ∈ fetchBatch snapMax lastId s, r.id ≤ snapMax := by
  intro r hr
  have hmem : r ∈ s.filter (eligible snapMax lastId) := List.mem_of_mem_take hr
  have helig := (List.mem_filter.mp hmem).2
  unfold eligible at helig
  simp only [Bool.and_eq_true, decide_eq_true_eq] at helig
  exact helig.1.2

theorem migrateLoop_frame_store (snapMax : Nat) :
    ∀ (fuel : Nat) (s : Store) (lastId : Option Nat) (acc : Nat),
      (migrateLoop snapMax fuel s lastId acc).1.filter (fun r => decide (snapMax < r.id))
        = s.filter (fun r => decide (snapMax < r.id)) := by
  intro fuel
  induction fuel with
  | zero => intro s lastId acc; rfl
  | succ n ih =>
    intro s lastId acc
    simp only [migrateLoop]
    cases hb : (fetchBatch snapMax lastId s).getLast? with
    | none => rfl
    | some lastDoc =>
      rw [ih, applyBulk_filter_gt snapMax _ (fetchBatch_le _ _ _) s]

/-- C9: within a single run the snapshot bound `snapMax`, captured once
and threaded unchanged through the loop, frames the migration — every
fetched batch contains only records with identifier at or below
`snapMax`, and the records above `snapMax` in the final store are exactly
the records above `snapMax` in the initial store, byte for byte. -/
theorem migration_snapshot_frame (snapMax fuel : Nat) (s : Store) (lastId : Option Nat)
    (acc : Nat) :
    (migrateLoop snapMax fuel s lastId acc).1.filter (fun r => decide (snapMax < r.id))
      = s.filter (fun r => decide (snapMax < r.id)) ∧
    ∀ r ∈ fetchBatch snapMax lastId s, r.id ≤ snapMax :=
  ⟨migrateLoop_frame_store snapMax fuel s lastId acc, fetchBatch_le snapMax lastId s⟩

/-- A one-record store used by the frame witness. -/
def storeOne : Store := [{ id := 1 }]

/-- Witness for C9's batch-bound conjunct at a concrete store. -/
theorem migration_snapshot_frame_witness :
    ({ id := 1 } : MsgRecord) ∈ fetchBatch 5 none storeOne ∧ (1 : Nat) ≤ 5 :=
  ⟨by decide, (migration_snapshot_frame 5 1 storeOne none 0).2 { id := 1 } (by decide)⟩

theorem applyBulk_id_map (s : Store) (batch : List MsgRecord) :
    (applyBulk s batch).map (fun r => r.id) = s.map (fun r => r.id) := by
  induction s with
  | nil => rfl
  | cons r rs ih =>
    rw [applyBulk_cons, List.map_cons, List.map_cons, ih]
    cases batch.find? (fun b => b.id == r.id) <;> rfl

theorem migrateLoop_id_map (snapMax : Nat) :
    ∀ (fuel : Nat) (s : Store) (lastId : Option Nat) (acc : Nat),
      ((migrateLoop snapMax fuel s lastId acc).1).map (fun r => r.id)
        = s.map (fun r => r.id) := by
  intro fuel
  induction fuel with
  | zero => intro s lastId acc; rfl
  | succ n ih =>
    intro s lastId acc
    simp only [migrateLoop]
    cases hb : (fetchBatch snapMax lastId s).getLast? with
    | none => rfl
    | some lastDoc => rw [ih, applyBulk_id_map]

theorem pairwise_id_of_map_eq {s t : Store}
    (h : s.map (fun r => r.id) = t.map (fun r => r.id))
    (hp : List.Pairwise (fun a b => a.id < b.id) t) :
    List.Pairwise (fun a b => a.id < b.id) s := by
  have h1 : List.Pairwise (· < ·) (t.map (fun r => r.id)) := List.pairwise_map.mpr hp
  rw [← h] at h1
  exact List.pairwise_map.mp h1

theorem le_getLast_of_pairwise :
    ∀ (l : List MsgRecord), List.Pairwise (fun a b => a.id < b.id) l →
      ∀ lastDoc, l.getLast? = some lastDoc → ∀ x ∈ l, x.id ≤ lastDoc.id := by
  intro l
  induction l with
  | nil => intro _ lastDoc h; simp at h
  | cons y ys ih =>
    intro hp lastDoc hl x hx
    cases ys with
    | nil =>
      simp at hl hx
      subst hl; subst hx
      exact Nat.le_refl _
    | cons z zs =>
      rw [List.getLast?_cons_cons] at hl
      rcases List.mem_cons.mp hx with hxy | hxs
      · subst hxy
        have hmem : lastDoc ∈ z :: zs := List.mem_of_getLast?_eq_some hl
        have := (List.pairwise_cons.mp hp).1 lastDoc hmem
        omega
      · exact ih (List.pairwise_cons.mp hp).2 lastDoc hl x hxs

theorem applyBulk_filter_eligible (snap upper : Nat) (batch : List MsgRecord)
    (hble : ∀ b ∈ batch, b.id ≤ upper) (s : Store) :
    (applyBulk s batch).filter (eligible snap (some upper))
      = s.filter (eligible snap (some upper)) := by
  induction s with
  | nil => rfl
  | cons r rs ih =>
    rw [applyBulk_cons, List.filter_cons, List.filter_cons]
    cases hf : batch.find? (fun b => b.id == r.id) with
    | none => simp only [ih]
    | some b =>
      have hb1 : b.id ≤ upper := hble b (List.mem_of_find?_eq_some hf)
      have hbeq := List.find?_some hf
      simp only [beq_iff_eq] at hbeq
      have hnot : ¬ upper < r.id := by omega
      have h1 : eligible snap (some upper)
          { r with search := some (buildSearchFromEnvelope b.envelope b.subject) } = false := by
        unfold eligible; simp
      have h2 : eligible snap (some upper) r = false := by
        unfold eligible; simp [hnot]
      rw [h1, h2]
      simp only [ih]
      simp

theorem eligible_mem_filter {snap : Nat} {lastId : Option Nat} {r : MsgRecord}
    (h : eligible snap lastId r = true) :
    r.search.isNone = true ∧ r.id ≤ snap := by
  unfold eligible at h
  simp only [Bool.and_eq_true, decide_eq_true_eq] at h
  exact ⟨h.1.1, h.1.2⟩

theorem step_filter (snapMax : Nat) (s : Store) (lastId : Option Nat)
    (hs : List.Pairwise (fun a b => a.id < b.id) s)
    (lastDoc : MsgRecord)
    (hlast : (fetchBatch snapMax lastId s).getLast? = some lastDoc) :
    (applyBulk s (fetchBatch snapMax lastId s)).filter (eligible snapMax (some lastDoc.id))
      = (s.filter (eligible snapMax lastId)).drop BATCH_SIZE := by
  have hfp_sorted : List.Pairwise (fun a b => a.id < b.id)
      (s.filter (eligible snapMax lastId)) :=
    List.Pairwise.sublist (List.filter_sublist s) hs
  have hbatch_sorted : List.Pairwise (fun a b => a.id < b.id)
      (fetchBatch snapMax lastId s) :=
    List.Pairwise.sublist (List.take_sublist _ _) hfp_sorted
  have hmax : ∀ x ∈ fetchBatch snapMax lastId s, x.id ≤ lastDoc.id :=
    le_getLast_of_pairwise _ hbatch_sorted lastDoc hlast
  have hlastmem : lastDoc ∈ fetchBatch snapMax lastId s :=
    List.mem_of_getLast?_eq_some hlast
  have hlast_elig : eligible snapMax lastId lastDoc = true :=
    (List.mem_filter.mp (List.mem_of_mem_take hlastmem)).2
  rw [applyBulk_filter_eligible snapMax lastDoc.id _ hmax s]
  have hB : s.filter (eligible snapMax (some lastDoc.id))
      = (s.filter (eligible snapMax lastId)).filter
          (fun r => decide (lastDoc.id < r.id)) := by
    rw [List.filter_filter]
    apply List.filter_congr
    intro r _
    unfold eligible
    cases hL : lastId with
    | none => cases hd : decide (lastDoc.id < r.id) <;> simp [hd]
    | some l =>
      have hl : l < lastDoc.id := by
        unfold eligible at hlast_elig
        rw [hL] at hlast_elig
        simp only [Bool.and_eq_true, decide_eq_true_eq] at hlast_elig
        exact hlast_elig.2
      by_cases hLr : lastDoc.id < r.id
      · have : l < r.id := by omega
        simp [hLr, this]
      · simp [hLr]
  rw [hB]
  conv_lhs => rw [← List.take_append_drop BATCH_SIZE (s.filter (eligible snapMax lastId))]
  rw [List.filter_append]
  have hsplit : List.Pairwise (fun a b => a.id < b.id)
      ((s.filter (eligible snapMax lastId)).take BATCH_SIZE ++
        (s.filter (eligible snapMax lastId)).drop BATCH_SIZE) := by
    rw [List.take_append_drop]; exact hfp_sorted
  have htake : ((s.filter (eligible snapMax lastId)).take BATCH_SIZE).filter
      (fun r => decide (lastDoc.id < r.id)) = [] := by
    rw [List.filter_eq_nil_iff]
    intro x hx
    have := hmax x hx
    simp
    omega
  have hdrop : ((s.filter (eligible snapMax lastId)).drop BATCH_SIZE).filter
      (fun r => decide (lastDoc.id < r.id))
      = (s.filter (eligible snapMax lastId)).drop BATCH_SIZE := by
    rw [List.filter_eq_self]
    intro x hx
    have := (List.pairwise_append.mp hsplit).2.2 lastDoc hlastmem x hx
    simp
    omega
  rw [htake, hdrop, List.nil_append]

theorem migrateLoop_exhausts (snapMax : Nat) :
    ∀ (fuel : Nat) (s : Store) (lastId : Option Nat) (acc : Nat),
      List.Pairwise (fun a b => a.id < b.id) s →
      (s.filter (eligible snapMax lastId)).length < fuel →
      (∀ r ∈ s, r.search.isNone = true → r.id ≤ snapMax →
        eligible snapMax lastId r = true) →
      ∀ r ∈ (migrateLoop snapMax fuel s lastId acc).1,
        r.search.isNone = true → ¬ r.id ≤ snapMax := by
  intro fuel
  induction fuel with
  | zero =>
    intro s lastId acc _ hlen _
    exact absurd hlen (Nat.not_lt_zero _)
  | succ n ih =>
    intro s lastId acc hs hlen hinv
    simp only [migrateLoop]
    cases hb : (fetchBatch snapMax lastId s).getLast? with
    | none =>
      intro r hr hrs hrle
      have hbatch : fetchBatch snapMax lastId s = [] :=
        List.getLast?_eq_none_iff.mp hb
      have hfpnil : s.filter (eligible snapMax lastId) = [] := by
        unfold fetchBatch at hbatch
        rcases List.take_eq_nil_iff.mp hbatch with h | h
        · exact absurd h (by decide)
        · exact h
      have helig : eligible snapMax lastId r = true := hinv r hr hrs hrle
      have : r ∈ s.filter (eligible snapMax lastId) := List.mem_filter.mpr ⟨hr, helig⟩
      rw [hfpnil] at this
      simp at this
    | some lastDoc =>
      have hstep := step_filter snapMax s lastId hs lastDoc hb
      have hbne : fetchBatch snapMax lastId s ≠ [] := by
        intro h; rw [h] at hb; simp at hb
      have hfppos : 0 < (s.filter (eligible snapMax lastId)).length := by
        by_contra hz
        have : s.filter (eligible snapMax lastId) = [] := by
          cases hc : s.filter (eligible snapMax lastId) with
          | nil => rfl
          | cons a l => rw [hc] at hz; simp at hz
        apply hbne
        unfold fetchBatch
        rw [this]
        rfl
      apply ih
      · exact pairwise_id_of_map_eq (applyBulk_id_map s _) hs
      · rw [hstep, List.length_drop]
        have hBpos : 1 ≤ BATCH_SIZE := by decide
        omega
      · intro r hr hrs hrle
        rcases List.mem_map.mp hr with ⟨r₀, hr₀, hfr⟩
        cases hf : (fetchBatch snapMax lastId s).find? (fun b => b.id == r₀.id) with
        | some b =>
          rw [hf] at hfr
          rw [← hfr] at hrs
          simp at hrs
        | none =>
          rw [hf] at hfr
          subst hfr
          have helig : eligible snapMax lastId r₀ = true := hinv r₀ hr₀ hrs hrle
          have hmemfp : r₀ ∈ s.filter (eligible snapMax lastId) :=
            List.mem_filter.mpr ⟨hr₀, helig⟩
          have hnotbatch : r₀ ∉ fetchBatch snapMax lastId s := by
            intro hmem
            have := List.find?_eq_none.mp hf r₀ hmem
            simp at this
          have hmemdrop : r₀ ∈ (s.filter (eligible snapMax lastId)).drop BATCH_SIZE := by
            have hsplit := (List.take_append_drop BATCH_SIZE
              (s.filter (eligible snapMax lastId)))
            have : r₀ ∈ (s.filter (eligible snapMax lastId)).take BATCH_SIZE ++
                (s.filter (eligible snapMax lastId)).drop BATCH_SIZE := by
              rw [hsplit]; exact hmemfp
            rcases List.mem_append.mp this with h | h
            · exact absurd h hnotbatch
            · exact h
          have hfp_sorted : List.Pairwise (fun a b => a.id < b.id)
              (s.filter (eligible snapMax lastId)) :=
            List.Pairwise.sublist (List.filter_sublist s) hs
          have hsplitPW : List.Pairwise (fun a b => a.id < b.id)
              ((s.filter (eligible snapMax lastId)).take BATCH_SIZE ++
                (s.filter (eligible snapMax lastId)).drop BATCH_SIZE) := by
            rw [List.take_append_drop]; exact hfp_sorted
          have hlt : lastDoc.id < r₀.id :=
            (List.pairwise_append.mp hsplitPW).2.2 lastDoc
              (List.mem_of_getLast?_eq_some hb) r₀ hmemdrop
          unfold eligible
          simp only [Bool.and_eq_true, decide_eq_true_eq]
          exact ⟨⟨hrs, hrle⟩, hlt⟩

theorem foldl_max_spec : ∀ (xs : List Nat) (x : Nat),
    x ≤ xs.foldl Nat.max x ∧ ∀ y ∈ xs, y ≤ xs.foldl Nat.max x := by
  intro xs
  induction xs with
  | nil => intro x; exact ⟨Nat.le_refl x, by simp⟩
  | cons z zs ih =>
    intro x
    have h := ih (Nat.max x z)
    refine ⟨Nat.le_trans (Nat.le_max_left x z) h.1, ?_⟩
    intro y hy
    rcases List.mem_cons.mp hy with h' | h'
    · subst h'
      exact Nat.le_trans (Nat.le_max_right x y) h.1
    · exact h.2 y h' 

theorem maxIdOf_bound (s : Store) (m : Nat) (h : maxIdOf s = some m) :
    ∀ r ∈ s, r.id ≤ m := by
  intro r hr
  unfold maxIdOf at h
  cases hs : s.map (fun r => r.id) with
  | nil => rw [hs] at h; exact absurd h (by simp)
  | cons x xs =>
    rw [hs] at h
    injection h with h
    subst h
    have hmem : r.id ∈ x :: xs := by rw [← hs]; exact List.mem_map_of_mem _ hr
    rcases List.mem_cons.mp hmem with h' | h'
    · rw [h']; exact (foldl_max_spec xs x).1
    · exact (foldl_max_spec xs x).2 r.id h' 

theorem addSearchFields_noop (t : Store) (h : ∀ r ∈ t, r.search.isNone = false) :
    addSearchFields t = (t, 0) := by
  unfold addSearchFields
  cases hm : maxIdOf t with
  | none => rfl
  | some m =>
    dsimp only
    have hnil : t.filter (fun r => r.search.isNone && r.id ≤ m) = [] := by
      rw [List.filter_eq_nil_iff]
      intro r hr
      simp [h r hr]
    rw [hnil]
    simp

/-- C8: the migration batch runner is idempotent — after one complete run
over a store (with ascending distinct identifiers), a second run over the
resulting dataset finds no eligible records, processes zero records and
returns the store byte-for-byte unchanged. -/
theorem addSearchFields_idempotent (s : Store)
    (hs : List.Pairwise (fun a b => a.id < b.id) s) :
    addSearchFields (addSearchFields s).1 = ((addSearchFields s).1, 0) := by
  apply addSearchFields_noop
  intro r hr
  by_contra hnone
  have hrs : r.search.isNone = true := by
    revert hnone; cases r.search <;> simp
  revert hr
  unfold addSearchFields
  cases hm : maxIdOf s with
  | none =>
    have hnil : s = [] := by
      unfold maxIdOf at hm
      cases s with
      | nil => rfl
      | cons a l => simp at hm
    subst hnil
    intro hr
    simp at hr
  | some m =>
    dsimp only
    by_cases htot : (s.filter (fun x => x.search.isNone && x.id ≤ m)).length = 0
    · rw [if_pos htot]
      intro hr
      have hle : r.id ≤ m := maxIdOf_bound s m hm r hr
      have hmem : r ∈ s.filter (fun x => x.search.isNone && x.id ≤ m) :=
        List.mem_filter.mpr ⟨hr, by simp [hrs, hle]⟩
      cases hc : s.filter (fun x => x.search.isNone && x.id ≤ m) with
      | nil => rw [hc] at hmem; simp at hmem
      | cons a l => rw [hc] at htot; simp at htot
    · rw [if_neg htot]
      intro hr
      have hfeq : s.filter (eligible m none)
          = s.filter (fun x => x.search.isNone && x.id ≤ m) := by
        apply List.filter_congr
        intro x _
        unfold eligible
        cases x.search.isNone <;> cases hd : decide (x.id ≤ m) <;> simp [hd]
      have hexh := migrateLoop_exhausts m
        ((s.filter (fun x => x.search.isNone && x.id ≤ m)).length + 1) s none 0 hs
        (by rw [hfeq]; exact Nat.lt_succ_self _)
        (by
          intro x _ h1 h2
          unfold eligible
          simp [h1, h2])
        r hr hrs
      have hids := migrateLoop_id_map m
        ((s.filter (fun x => x.search.isNone && x.id ≤ m)).length + 1) s none 0
      have hmem : r.id ∈ ((migrateLoop m
          ((s.filter (fun x => x.search.isNone && x.id ≤ m)).length + 1) s none 0).1).map
            (fun x => x.id) :=
        List.mem_map_of_mem _ hr
      rw [hids] at hmem
      rcases List.mem_map.mp hmem with ⟨r₀, hr₀, hid⟩
      have := maxIdOf_bound s m hm r₀ hr₀
      omega

/-- A three-record ascending store (one raw envelope, one subject-only
record, one already-migrated record) used by the idempotence witness. -/
def storeThree : Store :=
  [ { id := 1, envelope := some janeEnv },
    { id := 2, subject := "Hi There" },
    { id := 5, search := some [] } ]

/-- Witness for C8 at a concrete ascending store. -/
theorem addSearchFields_idempotent_witness :
    List.Pairwise (fun a b => a.id < b.id) storeThree ∧
    addSearchFields (addSearchFields storeThree).1 = ((addSearchFields storeThree).1, 0) :=
  ⟨by decide, addSearchFields_idempotent storeThree (by decide)⟩

end WildduckSearch
